import Mathlib

set_option linter.unusedVariables false

/-!
Shallow embedding of the icon-discovery and naming core of the icondata
build step: the value types and per-package filename parsing of
`build/src/icon/mod.rs`, and the directory traversal of
`build/src/package/reader.rs`.

Strings are modelled with Lean `String`.  Rust character classification
(`char::is_numeric`, `is_alphanumeric`, `is_lowercase`, `is_uppercase`) and
case mapping are modelled on the ASCII range, which covers every string this
repository manipulates.  A `none` result of a function modelling fallible
Rust code models a panic (an `unwrap` of `None` or an out-of-bounds or
non-boundary byte slice), never a returned `Err`; returned `Err` values are
modelled with `Except.error`.
-/

/-- Rust `char::is_numeric`, on the ASCII range. -/
def rustIsNumeric (c : Char) : Bool := c.isDigit

/-- Rust `str::starts_with` for a literal pattern. -/
def rustStartsWith (s pat : String) : Bool := pat.toList.isPrefixOf s.toList

/-- Rust `str::ends_with` for a literal pattern. -/
def rustEndsWith (s pat : String) : Bool := pat.toList.reverse.isPrefixOf s.toList.reverse

/-- One stripping loop for `trim_start_matches` with a literal pattern: while
the pattern is a non-empty prefix, drop it.  The fuel argument bounds the
number of rounds; `s.length` rounds always suffice because every round
removes at least one character. -/
def trimStartAux : Nat → List Char → List Char → List Char
  | 0, _, s => s
  | n + 1, pat, s =>
    if !pat.isEmpty && pat.isPrefixOf s then trimStartAux n pat (s.drop pat.length) else s

/-- Rust `str::trim_start_matches` with a literal pattern: repeatedly removes
the pattern from the front while it is a prefix. -/
def trim_start_matches (s pat : String) : String :=
  ⟨trimStartAux s.toList.length pat.toList s.toList⟩

/-- Rust `str::trim_end_matches` with a literal pattern: repeatedly removes
the pattern from the end while it is a suffix. -/
def trim_end_matches (s pat : String) : String :=
  ⟨(trimStartAux s.toList.length pat.toList.reverse s.toList.reverse).reverse⟩

/-- Rust `str::trim_start_matches` with a character predicate: removes the
maximal matching run from the front. -/
def trim_start_matches_pred (p : Char → Bool) (s : String) : String :=
  ⟨s.toList.dropWhile p⟩

/-- Rust `str::trim_end_matches` with a character predicate: removes the
maximal matching run from the end. -/
def trim_end_matches_pred (p : Char → Bool) (s : String) : String :=
  ⟨(s.toList.reverse.dropWhile p).reverse⟩

/-- The UTF-8 byte length of a string (Rust `str::len`). -/
def utf8Len (s : String) : Nat := (s.toList.map Char.utf8Size).sum

/-- Rust byte slicing `&s[i..]`, walking characters and subtracting their
byte sizes; `none` models the panic raised when `i` is past the end or not a
character boundary. -/
def sliceFromByteAux : List Char → Nat → Option (List Char)
  | s, 0 => some s
  | [], _ + 1 => none
  | c :: rest, i + 1 =>
    if c.utf8Size ≤ i + 1 then sliceFromByteAux rest (i + 1 - c.utf8Size) else none

/-- Rust `&file_stem[(file_stem.len() - 2)..]`: the final two bytes of the
string.  `none` models the panic when the string is shorter than two bytes
(the start index computation `len - 2` underflows) or when the cut is not a
character boundary. -/
def lastTwoBytes (s : String) : Option String :=
  if utf8Len s < 2 then none
  else (sliceFromByteAux s.toList (utf8Len s - 2)).map fun cs => ⟨cs⟩

/-- `Category` of `icon/mod.rs`: a string-valued tag.  `val` is the payload
the source accesses as `.0`. -/
structure Category where
  val : String
deriving DecidableEq, Repr

/-- `IconSize` of `icon/mod.rs`. -/
inductive IconSize where
  | Xs
  | Sm
  | Md
  | Lg
  | Xl
  | Xxl
deriving DecidableEq, Repr

/-- `IconSize::as_str`. -/
def IconSize.as_str : IconSize → String
  | .Xs => "xs"
  | .Sm => "sm"
  | .Md => "md"
  | .Lg => "lg"
  | .Xl => "xl"
  | .Xxl => "xxl"

/-- `IconSize::from_str` (`FromStr` impl): exact match against the fixed
numeral table, every other input is an `Err` carrying the offending
string inside the message. -/
def IconSize.from_str (str : String) : Except String IconSize :=
  if str = "12" then .ok .Xs
  else if str = "16" then .ok .Sm
  else if str = "20" then .ok .Md
  else if str = "24" then .ok .Lg
  else if str = "48" then .ok .Xl
  else if str = "96" then .ok .Xxl
  else .error ("Icon size '" ++ str ++ "' could not be recognized!")

/-- The package families distinguished by `parse_raw_icon_name` and
`read_icons`.  `Other` stands for every remaining variant of the source
`PackageType` enum, all of which the source handles through wildcard arms. -/
inductive PackageType where
  | GithubOcticons
  | WeatherIcons
  | BoxIcons
  | IcoMoonFree
  | RemixIcon
  | FluentUISystemIcons
  | Other
deriving DecidableEq, Repr

/-- The `LANGS` allow-list of the `FluentUISystemIcons` arm of
`parse_raw_icon_name`. -/
def LANGS : List String :=
  ["ar", "bg", "ca", "da", "de", "en", "es", "et", "eu", "fi", "fr", "gl", "gr", "he",
   "hu", "it", "ja", "kk", "ko", "lt", "lv", "ms", "no", "pt", "ru", "se", "sl", "sr",
   "sr-cyrl", "sr-latn", "sv", "tr", "uk", "zh", "LTR", "RTL"]

/-- `parse_raw_icon_name` of `icon/mod.rs`.  The source mutates the category
vector in place; the embedding returns the updated list as the third
component.  The result is `none` exactly when the source panics, which can
happen only in the `GithubOcticons` arm (byte slice `file_stem[(len - 2)..]`
on a stem shorter than two bytes or cut off a character boundary). -/
def parse_raw_icon_name (package : PackageType) (file_stem : String)
    (categories : List Category) : Option (String × Option IconSize × List Category) :=
  match package with
  | .GithubOcticons =>
    match lastTwoBytes file_stem with
    | none => none
    | some two =>
      let size := (IconSize.from_str two).toOption
      let name := trim_end_matches_pred (fun c => c == '-')
        (trim_end_matches_pred rustIsNumeric file_stem)
      some (name, size, categories)
  | .WeatherIcons => some (trim_start_matches file_stem "wi-", none, categories)
  | .BoxIcons =>
    some (trim_start_matches (trim_start_matches (trim_start_matches file_stem "bxl-") "bx-")
      "bxs-", none, categories)
  | .IcoMoonFree => some (trim_start_matches_pred rustIsNumeric file_stem, none, categories)
  | .RemixIcon =>
    if rustEndsWith file_stem "-fill" then
      some (trim_end_matches file_stem "-fill", none, categories ++ [Category.mk "fill"])
    else if rustEndsWith file_stem "-line" then
      some (trim_end_matches file_stem "-line", none, categories ++ [Category.mk "line"])
    else
      some (file_stem, none, categories)
  | .FluentUISystemIcons =>
    some (trim_start_matches file_stem "ic_fluent_", none,
      categories.filter fun cat =>
        LANGS.contains cat.val || (rustEndsWith cat.val "Temp LTR"
          || rustEndsWith cat.val "Temp RTL"))
  | .Other => some (file_stem, none, categories)

/-- Word-scanning mode of the heck case-conversion algorithm. -/
inductive WordMode where
  | boundary
  | lowercase
  | uppercase
deriving DecidableEq, BEq, Repr

/-- heck word segmentation inside one alphanumeric segment: a boundary falls
between a lowercase-mode character and an uppercase one, and before the last
uppercase character of an uppercase run followed by a lowercase character. -/
def segGo (acc : List Char) (mode : WordMode) : List Char → List (List Char)
  | [] => []
  | [c] => [acc ++ [c]]
  | c :: next :: rest =>
    let nextMode :=
      if c.isLower then WordMode.lowercase
      else if c.isUpper then WordMode.uppercase
      else mode
    if nextMode == WordMode.lowercase && next.isUpper then
      (acc ++ [c]) :: segGo [] WordMode.boundary (next :: rest)
    else if mode == WordMode.uppercase && c.isUpper && next.isLower then
      acc :: segGo [c] WordMode.boundary (next :: rest)
    else
      segGo (acc ++ [c]) nextMode (next :: rest)

/-- Splitting on non-alphanumeric characters (Rust
`s.split(|c| !c.is_alphanumeric())`), keeping empty segments. -/
def splitNonAlnumAux (cur : List Char) : List Char → List (List Char)
  | [] => [cur]
  | c :: rest =>
    if c.isAlphanum then splitNonAlnumAux (cur ++ [c]) rest
    else cur :: splitNonAlnumAux [] rest

/-- heck `PascalCase` word writer: first character uppercased, the rest
lowercased (ASCII model of the Rust case mappings). -/
def capitalizeWord : List Char → List Char
  | [] => []
  | c :: rest => c.toUpper :: rest.map Char.toLower

/-- heck `ToPascalCase`: split on non-alphanumeric characters, split each
segment at case boundaries, capitalize every word and concatenate without
delimiters. -/
def to_pascal_case (s : String) : String :=
  ⟨(((splitNonAlnumAux [] s.toList).map (segGo [] WordMode.boundary)).flatten.map
      capitalizeWord).flatten⟩

/-- The space-joined string built by `feature_name` before the Pascal-case
fold: every pushed token, including the last one, is followed by one space
character (the source pushes `' '` after each `push_str`). -/
def feature_name_joined (raw_name : String) (size : Option IconSize)
    (categories : List Category) (package_short_name : String) : String :=
  package_short_name ++ " " ++ raw_name ++ " "
    ++ String.join (categories.map fun category => category.val ++ " ")
    ++ match size with
       | some size => size.as_str ++ " "
       | none => ""

/-- `feature_name` of `icon/mod.rs`: build the space-joined token string and
apply the Pascal-case fold. -/
def feature_name (raw_name : String) (size : Option IconSize)
    (categories : List Category) (package_short_name : String) : String :=
  to_pascal_case (feature_name_joined raw_name size categories package_short_name)

/-- A file-system path: an absolute flag and the list of (already
normalized) components, modelling Rust `PathBuf`. -/
structure PathBuf where
  absolute : Bool
  comps : List String
deriving DecidableEq, Repr

/-- Rust `Path::join`: an absolute argument replaces the receiver, a
relative one is appended. -/
def joinPath (p q : PathBuf) : PathBuf :=
  if q.absolute then q else ⟨p.absolute, p.comps ++ q.comps⟩

/-- The path of a directory entry (`entry.path()` of `tokio::fs::read_dir`):
the directory's path extended by the entry's name. -/
def pushPath (p : PathBuf) (name : String) : PathBuf :=
  ⟨p.absolute, p.comps ++ [name]⟩

/-- Rust `Path::file_name`: the last component, or `none` for an empty
component list or a trailing `..` component. -/
def pathFileName (p : PathBuf) : Option String :=
  match p.comps.getLast? with
  | none => none
  | some c => if c = ".." then none else some c

/-- Rust `Path::file_stem` restricted to one file name: the portion before
the last dot, except that a name whose only dot is the leading character, or
a name with no dot, is its own stem. -/
def stemOfName (name : String) : Option String :=
  if name = "" then none
  else
    let rev := name.toList.reverse
    let afterDot := rev.takeWhile (fun c => c != '.')
    if afterDot.length = rev.length then some name
    else if rev.drop (afterDot.length + 1) = [] then some name
    else some ⟨(rev.drop (afterDot.length + 1)).reverse⟩

/-- Rust `Path::extension` restricted to one file name: the portion after
the last dot, unless the name has no dot or its only dot is the leading
character. -/
def extOfName (name : String) : Option String :=
  if name = "" then none
  else
    let rev := name.toList.reverse
    let afterDot := rev.takeWhile (fun c => c != '.')
    if afterDot.length = rev.length then none
    else if rev.drop (afterDot.length + 1) = [] then none
    else some ⟨afterDot.reverse⟩

/-- Rust `Path::file_stem` on a full path: the stem of its file name. -/
def pathFileStem (p : PathBuf) : Option String :=
  (pathFileName p).bind stemOfName

/-- The package handle seen by this core: the `PackageType` tag and the
package's short display name (`package.ty` and `package.meta.short_name`);
the remaining metadata of the source `Package` struct is not consumed
here. -/
structure Package where
  ty : PackageType
  short_name : String
deriving DecidableEq, Repr

/-- The name computation of `SvgIcon::new`: derive the file stem
(`path.file_stem().unwrap()` — `none` here models the panic of `unwrap` on a
path with no derivable base name), run `parse_raw_icon_name`, and synthesize
the feature name with `size_from_name.or(size)`.  File reading and SVG
parsing are external collaborators and are not part of the name. -/
def svgIcon_new_name (package : Package) (path : PathBuf) (size : Option IconSize)
    (categories : List Category) : Option String :=
  match pathFileStem path with
  | none => none
  | some file_stem =>
    match parse_raw_icon_name package.ty file_stem categories with
    | none => none
    | some (raw_name, size_from_name, categories) =>
      some (feature_name raw_name (size_from_name.or size) categories package.short_name)

/-- A directory tree entry as enumerated by the traversal: a subdirectory
with its contents, or a file with its full name. -/
inductive FsEntry where
  | dir (name : String) (entries : List FsEntry)
  | file (name : String)
deriving Repr

/-- `SearchDir` of `reader.rs`: a traversal work item.  `entries` carries
the contents of the directory at `path` (which the source reads back from
the file system). -/
structure SearchDir where
  path : PathBuf
  entries : List FsEntry
  categories : List Category
  icon_size : Option IconSize
deriving Repr

/-- The arguments of one `SvgIcon::new` invocation made by `read_icons`:
the entry path, the directory-inherited icon size, and the clone of the
directory's accumulated categories. -/
structure IconCall where
  path : PathBuf
  icon_size : Option IconSize
  categories : List Category
deriving Repr

/-- The work item pushed by `read_icons` for one subdirectory entry: path
`path.join(&entry_path)`, the parent's categories extended by the entry name
when the package-type category predicate accepts it, and the parent's icon
size or, when absent, the parse of the entry name. -/
def subdirItem (isCat : String → Bool) (p : PathBuf) (cats : List Category)
    (sz : Option IconSize) (name : String) (sub : List FsEntry) : SearchDir :=
  { path := joinPath p (pushPath p name)
    entries := sub
    categories := if isCat name then cats ++ [Category.mk name] else cats
    icon_size := sz.or (IconSize.from_str name).toOption }

/-- The per-entry subdirectory action of the `read_icons` loop, as a
`filterMap`-ready function: `some` work item for a directory entry, `none`
for a file entry. -/
def subdirItemOf (isCat : String → Bool) (p : PathBuf) (cats : List Category)
    (sz : Option IconSize) : FsEntry → Option SearchDir
  | .file _ => none
  | .dir name sub => some (subdirItem isCat p cats sz name sub)

/-- The per-entry file action of the `read_icons` loop: `some` invocation of
`SvgIcon::new` when the file is accepted, `none` when it is skipped.  The
source skips (without error) files with no extension or a non-`svg`
extension, and, for `FluentUISystemIcons` only, files failing the
two-category / no-`Temp`-marker / `20_regular`-or-`20_filled` gate.  Entry
names produced by a directory read are never `.` or `..`, so the entry
path's file name is the entry's own name and the extension and stem are
computed from it directly.  The `none` stem branch of the gate mirrors an
`unwrap` that is unreachable: a name with extension `svg` always has a
stem. -/
def fileCallOf (pkgTy : PackageType) (p : PathBuf) (cats : List Category)
    (sz : Option IconSize) : FsEntry → Option IconCall
  | .dir _ _ => none
  | .file name =>
    match extOfName name with
    | none => none
    | some ext =>
      if ext = "svg" then
        if pkgTy = PackageType.FluentUISystemIcons then
          if cats.length ≠ 2 then none
          else if cats.any (fun cat =>
              rustEndsWith cat.val "Temp LTR" || rustEndsWith cat.val "Temp RTL") then none
          else
            match stemOfName name with
            | some file_stem =>
              if rustEndsWith file_stem "20_regular" || rustEndsWith file_stem "20_filled" then
                some ⟨pushPath p name, sz, cats⟩
              else none
            | none => none
        else some ⟨pushPath p name, sz, cats⟩
      else none

/-- The inner entry loop of `read_icons` over one popped work item: walks
the directory entries in order, appending a work item to the search stack
for each subdirectory and an `SvgIcon::new` invocation to the icon list for
each accepted file. -/
def processEntries (pkgTy : PackageType) (isCat : String → Bool) (p : PathBuf)
    (cats : List Category) (sz : Option IconSize) :
    List FsEntry → List SearchDir → List IconCall → List SearchDir × List IconCall
  | [], stack, icons => (stack, icons)
  | .dir name sub :: es, stack, icons =>
    processEntries pkgTy isCat p cats sz es (stack ++ [subdirItem isCat p cats sz name sub]) icons
  | .file name :: es, stack, icons =>
    match fileCallOf pkgTy p cats sz (.file name) with
    | some call => processEntries pkgTy isCat p cats sz es stack (icons ++ [call])
    | none => processEntries pkgTy isCat p cats sz es stack icons

theorem processEntries_eq (pkgTy : PackageType) (isCat : String → Bool) (p : PathBuf)
    (cats : List Category) (sz : Option IconSize) :
    ∀ (es : List FsEntry) (stack : List SearchDir) (icons : List IconCall),
    processEntries pkgTy isCat p cats sz es stack icons
      = (stack ++ es.filterMap (subdirItemOf isCat p cats sz),
         icons ++ es.filterMap (fileCallOf pkgTy p cats sz)) := by
  intro es
  induction es with
  | nil => intro stack icons; simp [processEntries]
  | cons e rest ih =>
    intro stack icons
    cases e with
    | dir name sub =>
      simp [processEntries, ih, subdirItemOf, fileCallOf, List.filterMap_cons]
    | file name =>
      cases h : fileCallOf pkgTy p cats sz (.file name) with
      | none => simp [processEntries, h, ih, subdirItemOf, List.filterMap_cons]
      | some call => simp [processEntries, h, ih, subdirItemOf, List.filterMap_cons]

mutual

/-- Size of one directory entry: one for a file, one plus the summed sizes
of the contents for a directory. -/
def entrySize : FsEntry → Nat
  | .file _ => 1
  | .dir _ es => 1 + entriesSize es

/-- Summed sizes of a list of directory entries. -/
def entriesSize : List FsEntry → Nat
  | [] => 0
  | e :: es => entrySize e + entriesSize es

end

/-- Termination measure of the traversal: every work item on the search
stack weighs one plus the size of its directory contents. -/
def stackMeasure (st : List SearchDir) : Nat :=
  (st.map fun d => 1 + entriesSize d.entries).sum

theorem stackMeasure_append (s₁ s₂ : List SearchDir) :
    stackMeasure (s₁ ++ s₂) = stackMeasure s₁ + stackMeasure s₂ := by
  simp [stackMeasure]

theorem stackMeasure_reverse (s : List SearchDir) :
    stackMeasure s.reverse = stackMeasure s := by
  simp [stackMeasure, List.map_reverse, List.sum_reverse]

theorem stackMeasure_cons (d : SearchDir) (rest : List SearchDir) :
    stackMeasure (d :: rest) = 1 + entriesSize d.entries + stackMeasure rest := by
  simp [stackMeasure]

theorem filterMap_subdir_measure (isCat : String → Bool) (p : PathBuf)
    (cats : List Category) (sz : Option IconSize) :
    ∀ (es : List FsEntry),
    stackMeasure (es.filterMap (subdirItemOf isCat p cats sz)) ≤ entriesSize es := by
  intro es
  induction es with
  | nil => simp [stackMeasure, entriesSize]
  | cons e rest ih =>
    cases e with
    | dir name sub =>
      simp only [List.filterMap_cons, subdirItemOf, stackMeasure_cons, subdirItem,
        entriesSize, entrySize] at *
      omega
    | file name =>
      simp only [List.filterMap_cons, subdirItemOf, entriesSize, entrySize] at *
      omega

theorem pushed_measure_lt (pkgTy : PackageType) (isCat : String → Bool) (d : SearchDir)
    (rest : List SearchDir) :
    stackMeasure
        ((processEntries pkgTy isCat d.path d.categories d.icon_size d.entries [] []).1.reverse
          ++ rest)
      < stackMeasure (d :: rest) := by
  rw [processEntries_eq]
  rw [stackMeasure_append, stackMeasure_reverse, stackMeasure_cons]
  have h := filterMap_subdir_measure isCat d.path d.categories d.icon_size d.entries
  simp only [List.nil_append] at *
  omega

/-- The `while let Some(..) = search_dirs.pop()` loop of `read_icons`.  The
source keeps the stack in a `Vec` popped from the back; the embedding keeps
the top of the stack at the head of the list, so the work items discovered
in one directory (appended in entry order by `processEntries`) are reversed
before being placed on top.  The output lists the `SvgIcon::new` invocations
in the order the source appends icons to its result vector. -/
def readIconsLoop (pkgTy : PackageType) (isCat : String → Bool) :
    List SearchDir → List IconCall
  | [] => []
  | d :: rest =>
    (processEntries pkgTy isCat d.path d.categories d.icon_size d.entries [] []).2
      ++ readIconsLoop pkgTy isCat
          ((processEntries pkgTy isCat d.path d.categories d.icon_size d.entries [] []).1.reverse
            ++ rest)
termination_by st => stackMeasure st
decreasing_by
  exact pushed_measure_lt pkgTy isCat d rest

/-- `read_icons` of `reader.rs`: seed the search stack with the package's
icon directory, no categories and no size, and drain it.  The category
predicate `PackageType::is_category` is defined outside the two provided
sources, so the traversal is parameterized over it as `isCat`. -/
def read_icons (pkgTy : PackageType) (isCat : String → Bool) (icons_path : PathBuf)
    (entries : List FsEntry) : List IconCall :=
  readIconsLoop pkgTy isCat [⟨icons_path, entries, [], none⟩]

theorem readIconsLoop_nil (pkgTy : PackageType) (isCat : String → Bool) :
    readIconsLoop pkgTy isCat [] = [] := by
  simp [readIconsLoop]

theorem readIconsLoop_cons (pkgTy : PackageType) (isCat : String → Bool)
    (d : SearchDir) (rest : List SearchDir) :
    readIconsLoop pkgTy isCat (d :: rest)
      = (processEntries pkgTy isCat d.path d.categories d.icon_size d.entries [] []).2
        ++ readIconsLoop pkgTy isCat
            ((processEntries pkgTy isCat d.path d.categories d.icon_size
                d.entries [] []).1.reverse ++ rest) := by
  rw [readIconsLoop]

theorem readIconsLoop_append_bound (pkgTy : PackageType) (isCat : String → Bool) :
    ∀ (n : Nat) (s₁ s₂ : List SearchDir), stackMeasure s₁ ≤ n →
    readIconsLoop pkgTy isCat (s₁ ++ s₂)
      = readIconsLoop pkgTy isCat s₁ ++ readIconsLoop pkgTy isCat s₂ := by
  intro n
  induction n with
  | zero =>
    intro s₁ s₂ h
    cases s₁ with
    | nil => simp [readIconsLoop_nil]
    | cons d rest =>
      exfalso
      rw [stackMeasure_cons] at h
      omega
  | succ n ih =>
    intro s₁ s₂ h
    cases s₁ with
    | nil => simp [readIconsLoop_nil]
    | cons d rest =>
      rw [List.cons_append, readIconsLoop_cons, readIconsLoop_cons, ← List.append_assoc]
      rw [ih ((processEntries pkgTy isCat d.path d.categories d.icon_size
          d.entries [] []).1.reverse ++ rest) s₂]
      · rw [List.append_assoc]
      · have hlt := pushed_measure_lt pkgTy isCat d rest
        omega

/-- Splitting the search stack splits the traversal output: the items on top
are fully drained (they and all their descendants) before the items below
are touched. -/
theorem readIconsLoop_append (pkgTy : PackageType) (isCat : String → Bool)
    (s₁ s₂ : List SearchDir) :
    readIconsLoop pkgTy isCat (s₁ ++ s₂)
      = readIconsLoop pkgTy isCat s₁ ++ readIconsLoop pkgTy isCat s₂ :=
  readIconsLoop_append_bound pkgTy isCat (stackMeasure s₁) s₁ s₂ le_rfl

theorem trimStartAux_unchanged (n : Nat) (pat s : List Char)
    (h : pat.isPrefixOf s = false) : trimStartAux n pat s = s := by
  cases n with
  | zero => rfl
  | succ n => simp [trimStartAux, h]

theorem trim_start_matches_unchanged (s pat : String)
    (h : pat.toList.isPrefixOf s.toList = false) : trim_start_matches s pat = s := by
  unfold trim_start_matches
  rw [trimStartAux_unchanged _ _ _ h]
  cases s
  rfl

/-- C3: `IconSize::from_str` maps exactly the numerals "12", "16", "20",
"24", "48", "96" to the tiers Xs, Sm, Md, Lg, Xl, Xxl, and every other input
string yields an error carrying the offending string — never a default
tier. -/
theorem c3_from_str_table :
    (IconSize.from_str "12" = .ok .Xs ∧ IconSize.from_str "16" = .ok .Sm
      ∧ IconSize.from_str "20" = .ok .Md ∧ IconSize.from_str "24" = .ok .Lg
      ∧ IconSize.from_str "48" = .ok .Xl ∧ IconSize.from_str "96" = .ok .Xxl)
    ∧ ∀ s : String, s ∉ (["12", "16", "20", "24", "48", "96"] : List String) →
      IconSize.from_str s
        = .error ("Icon size '" ++ s ++ "' could not be recognized!") := by
  constructor
  · exact ⟨rfl, rfl, rfl, rfl, rfl, rfl⟩
  · intro s hs
    simp only [List.mem_cons, List.not_mem_nil, or_false, not_or] at hs
    obtain ⟨h1, h2, h3, h4, h5, h6⟩ := hs
    simp [IconSize.from_str, h1, h2, h3, h4, h5, h6]

theorem c3_from_str_table_witness :
    IconSize.from_str "icon" = .error "Icon size 'icon' could not be recognized!" :=
  c3_from_str_table.2 "icon" (by decide)

/-- C10 counterexample: the code has no label parser — `from_str` matches
the pixel numerals, so parsing the canonical lowercase label "xs" does not
yield the tier `Xs`; it is rejected with an unrecognized-size error. -/
theorem c10_cex_label_is_not_parsed :
    IconSize.from_str "xs" ≠ .ok IconSize.Xs
      ∧ IconSize.from_str "xs" = .error "Icon size 'xs' could not be recognized!" := by
  constructor
  · simp [IconSize.from_str]
  · simp [IconSize.from_str]

/-- C10 (amended): the round trip through the fixed tables is
numeral→tier→label, not label→tier→label: parsing each tier's canonical
numeral string yields that tier, rendering each tier yields its canonical
lowercase label, and mapping each numeral through `from_str` then `as_str`
gives the fixed label table for all six tiers. -/
theorem c10_numeral_tier_label_roundtrip :
    ((IconSize.from_str "12").map IconSize.as_str = .ok "xs"
      ∧ (IconSize.from_str "16").map IconSize.as_str = .ok "sm"
      ∧ (IconSize.from_str "20").map IconSize.as_str = .ok "md"
      ∧ (IconSize.from_str "24").map IconSize.as_str = .ok "lg"
      ∧ (IconSize.from_str "48").map IconSize.as_str = .ok "xl"
      ∧ (IconSize.from_str "96").map IconSize.as_str = .ok "xxl")
    ∧ (IconSize.Xs.as_str = "xs" ∧ IconSize.Sm.as_str = "sm" ∧ IconSize.Md.as_str = "md"
      ∧ IconSize.Lg.as_str = "lg" ∧ IconSize.Xl.as_str = "xl"
      ∧ IconSize.Xxl.as_str = "xxl") :=
  ⟨⟨rfl, rfl, rfl, rfl, rfl, rfl⟩, ⟨rfl, rfl, rfl, rfl, rfl, rfl⟩⟩

/-- C2 counterexample: the string built by `feature_name` before the fold
carries a trailing space after the last token (the source pushes a space
after every token), so for short name "Foo", raw name "bar", categories
["fill", "line"], size Md it is not the quoted "Foo bar fill line md". -/
theorem c2_cex_prefold_has_trailing_space :
    feature_name_joined "bar" (some .Md) [⟨"fill"⟩, ⟨"line"⟩] "Foo"
      ≠ "Foo bar fill line md" := by decide

/-- C2 (amended): `feature_name` builds the space-joined token string
`<package short name> <raw name> <category>... <size>` with every token,
including the last, followed by one space (categories in accumulation
order, size last and omitted when absent), then Pascal-case folds it; for
short name "Foo", raw name "bar", categories ["fill", "line"], size Md the
pre-fold string is "Foo bar fill line md " and the folded result is
"FooBarFillLineMd", which contains no space character. -/
theorem c2_feature_name_synthesis :
    (∀ (raw : String) (size : Option IconSize) (cats : List Category) (short : String),
      feature_name raw size cats short
        = to_pascal_case (feature_name_joined raw size cats short))
    ∧ feature_name_joined "bar" (some .Md) [⟨"fill"⟩, ⟨"line"⟩] "Foo"
        = "Foo bar fill line md "
    ∧ feature_name "bar" (some .Md) [⟨"fill"⟩, ⟨"line"⟩] "Foo" = "FooBarFillLineMd"
    ∧ (feature_name "bar" (some .Md) [⟨"fill"⟩, ⟨"line"⟩] "Foo").toList.all
        (fun c => c != ' ') = true :=
  ⟨fun raw size cats short => rfl, by decide, by decide, by decide⟩

/-- C4: on a path with no derivable base name — here the filesystem root,
whose `file_stem()` is `None` — `SvgIcon::new` does not report an error to
its caller: it unwraps the `None` stem (the source marks the line with a
TODO about error handling) and panics, modelled by the `none` result. -/
theorem c4_new_panics_on_missing_stem :
    pathFileStem ⟨true, []⟩ = none
      ∧ svgIcon_new_name ⟨.GithubOcticons, "Octicons"⟩ ⟨true, []⟩ none [] = none :=
  ⟨rfl, rfl⟩

/-- C5 counterexample: the `GithubOcticons` rule does fail on some stems: on
the one-character stem "a" the slice `file_stem[(file_stem.len() - 2)..]`
panics (the start index underflows), modelled by the `none` result —
contradicting the claim that no input stem ever fails. -/
theorem c5_cex_short_stem_panics :
    parse_raw_icon_name .GithubOcticons "a" [] = none := by decide

/-- C5 (amended): for every stem whose final-two-byte slice is well defined
(UTF-8 byte length at least two and the cut on a character boundary, so in
particular every ASCII stem of length at least two), the `GithubOcticons`
rule never fails: the two-byte suffix is parsed as a size — `none`, not an
error, when it is not a recognized numeral — and the returned name is the
stem with its maximal run of trailing digits and then of trailing dashes
removed, the categories untouched. -/
theorem c5_octicons_suffix_rule (file_stem : String) (cats : List Category)
    (two : String) (h : lastTwoBytes file_stem = some two) :
    parse_raw_icon_name .GithubOcticons file_stem cats
      = some (trim_end_matches_pred (fun c => c == '-')
            (trim_end_matches_pred rustIsNumeric file_stem),
          (IconSize.from_str two).toOption, cats) := by
  simp [parse_raw_icon_name, h]

theorem c5_octicons_suffix_rule_witness :
    parse_raw_icon_name .GithubOcticons "alert-24" []
      = some ("alert", some IconSize.Lg, []) :=
  c5_octicons_suffix_rule "alert-24" [] "24" rfl

/-- C6 counterexample: BoxIcons prefix removal is not once-only
first-match-wins: on the stem "bx-bx-foo" the claim demands "bx-foo" (a
single removal of the first matching prefix and nothing more), but
`trim_start_matches` removes repeated occurrences, so the code yields
"foo". -/
theorem c6_cex_repeated_removal :
    parse_raw_icon_name .BoxIcons "bx-bx-foo" [] ≠ some ("bx-foo", none, [])
      ∧ parse_raw_icon_name .BoxIcons "bx-bx-foo" [] = some ("foo", none, []) := by
  constructor
  · decide
  · decide

/-- C6 (amended): the BoxIcons rule strips the three literal prefixes
sequentially in the fixed order "bxl-", then "bx-", then "bxs-", each strip
removing every consecutive leading occurrence of its prefix (so repeated
copies, or several different prefixes, can all be removed); a name starting
with none of the three prefixes is returned unchanged; the size is always
`none` and the categories are untouched. -/
theorem c6_boxicons_prefix_rule (file_stem : String) (cats : List Category) :
    (parse_raw_icon_name .BoxIcons file_stem cats
      = some (trim_start_matches (trim_start_matches
          (trim_start_matches file_stem "bxl-") "bx-") "bxs-", none, cats))
    ∧ (rustStartsWith file_stem "bxl-" = false →
       rustStartsWith file_stem "bx-" = false →
       rustStartsWith file_stem "bxs-" = false →
       parse_raw_icon_name .BoxIcons file_stem cats = some (file_stem, none, cats)) := by
  constructor
  · rfl
  · intro h1 h2 h3
    have t1 : trim_start_matches file_stem "bxl-" = file_stem :=
      trim_start_matches_unchanged _ _ h1
    have t2 : trim_start_matches file_stem "bx-" = file_stem :=
      trim_start_matches_unchanged _ _ h2
    have t3 : trim_start_matches file_stem "bxs-" = file_stem :=
      trim_start_matches_unchanged _ _ h3
    simp [parse_raw_icon_name, t1, t2, t3]

theorem c6_boxicons_prefix_rule_witness :
    parse_raw_icon_name .BoxIcons "heart" [] = some ("heart", none, []) :=
  (c6_boxicons_prefix_rule "heart" []).2 (by decide) (by decide) (by decide)

/-- C9: the size handed to `feature_name` by `SvgIcon::new` is
`size_from_name.or(size)`: the name-derived size whenever
`parse_raw_icon_name` yields one, and otherwise the directory-inherited
size. -/
theorem c9_size_precedence (package : Package) (path : PathBuf) (size : Option IconSize)
    (cats : List Category) (file_stem raw : String) (size_from_name : Option IconSize)
    (cats2 : List Category)
    (hstem : pathFileStem path = some file_stem)
    (hparse : parse_raw_icon_name package.ty file_stem cats
      = some (raw, size_from_name, cats2)) :
    svgIcon_new_name package path size cats
      = some (feature_name raw
          (match size_from_name with
           | some v => some v
           | none => size) cats2 package.short_name) := by
  simp only [svgIcon_new_name, hstem, hparse]
  cases size_from_name <;> rfl

theorem c9_size_precedence_witness :
    svgIcon_new_name ⟨.GithubOcticons, "Oct"⟩ ⟨true, ["icons", "alert-24.svg"]⟩
        (some IconSize.Sm) [] = some "OctAlertLg" :=
  c9_size_precedence ⟨.GithubOcticons, "Oct"⟩ ⟨true, ["icons", "alert-24.svg"]⟩
    (some IconSize.Sm) [] "alert-24" "alert" (some IconSize.Lg) [] rfl rfl

/-- C7: the acceptance filter of `read_icons` on one file entry.  For
`FluentUISystemIcons` an invocation of `SvgIcon::new` is produced exactly
when the file name has extension `svg`, the directory carries exactly two
accumulated categories, no category ends with "Temp LTR" or "Temp RTL", and
the file stem ends with "20_regular" or "20_filled"; a failing file yields
`none` (a skip), never an error.  For every other package type an `svg`
file is accepted unconditionally. -/
theorem c7_acceptance_filter (pkgTy : PackageType) (p : PathBuf) (cats : List Category)
    (sz : Option IconSize) (name : String) :
    (pkgTy = .FluentUISystemIcons →
      (fileCallOf pkgTy p cats sz (.file name)).isSome
        = (extOfName name == some "svg" && cats.length == 2
            && !(cats.any fun cat =>
                  rustEndsWith cat.val "Temp LTR" || rustEndsWith cat.val "Temp RTL")
            && (match stemOfName name with
                | some st => rustEndsWith st "20_regular" || rustEndsWith st "20_filled"
                | none => false)))
    ∧ (pkgTy ≠ .FluentUISystemIcons →
      (fileCallOf pkgTy p cats sz (.file name)).isSome = (extOfName name == some "svg")) := by
  constructor
  · rintro rfl
    simp only [fileCallOf]
    cases hext : extOfName name with
    | none => simp
    | some ext =>
      by_cases hsvg : ext = "svg"
      · subst hsvg
        by_cases hlen : cats.length = 2
        · by_cases hany : (cats.any fun cat =>
              rustEndsWith cat.val "Temp LTR" || rustEndsWith cat.val "Temp RTL") = true
          · simp [hlen, hany]
          · cases hstem : stemOfName name with
            | none =>
              simp [hlen, hany, hstem]
            | some st =>
              by_cases hend :
                  (rustEndsWith st "20_regular" || rustEndsWith st "20_filled") = true
              · simp [hlen, hany, hstem, hend]
              · simp only [Bool.not_eq_true] at hend
                simp [hlen, hany, hstem, hend]
        · simp [hlen]
      · simp [hsvg]
  · intro hne
    simp only [fileCallOf]
    cases hext : extOfName name with
    | none => simp
    | some ext =>
      by_cases hsvg : ext = "svg"
      · subst hsvg
        simp [hne]
      · simp [hsvg]

theorem c7_acceptance_filter_witness :
    (fileCallOf .FluentUISystemIcons ⟨true, ["i"]⟩ [⟨"en"⟩, ⟨"Mail"⟩] none
        (.file "mail_20_regular.svg")).isSome = true
    ∧ (fileCallOf .BoxIcons ⟨true, ["i"]⟩ [] none (.file "x.svg")).isSome = true := by
  constructor
  · have h := (c7_acceptance_filter .FluentUISystemIcons ⟨true, ["i"]⟩ [⟨"en"⟩, ⟨"Mail"⟩]
      none "mail_20_regular.svg").1 rfl
    rw [h]
    decide
  · have h := (c7_acceptance_filter .BoxIcons ⟨true, ["i"]⟩ [] none "x.svg").2 (by decide)
    rw [h]
    decide

/-- C8: while processing a work item with absolute path `p`, categories
`cats` and inherited size `sz`, a subdirectory entry named `name` with
contents `sub` produces exactly one pushed work item: its path is `p`
extended by `name`, its category list is the parent's list extended by
`Category name` exactly when the package's category predicate accepts
`name`, and its inherited size is the parent's or, when the parent has
none, the parse of the bare directory name. -/
theorem c8_subdir_work_item (pkgTy : PackageType) (isCat : String → Bool) (p : PathBuf)
    (cats : List Category) (sz : Option IconSize) (name : String) (sub : List FsEntry)
    (h : p.absolute = true) (es₁ es₂ : List FsEntry) :
    (processEntries pkgTy isCat p cats sz (es₁ ++ FsEntry.dir name sub :: es₂) [] []).1
      = es₁.filterMap (subdirItemOf isCat p cats sz)
        ++ ({ path := ⟨true, p.comps ++ [name]⟩
              entries := sub
              categories := cats ++ (if isCat name then [Category.mk name] else [])
              icon_size := sz.or (IconSize.from_str name).toOption } : SearchDir)
          :: es₂.filterMap (subdirItemOf isCat p cats sz) := by
  have hitem : subdirItem isCat p cats sz name sub
      = { path := ⟨true, p.comps ++ [name]⟩
          entries := sub
          categories := cats ++ (if isCat name then [Category.mk name] else [])
          icon_size := sz.or (IconSize.from_str name).toOption } := by
    unfold subdirItem joinPath pushPath
    simp only [h]
    cases hc : isCat name <;> simp
  rw [processEntries_eq]
  simp only [List.nil_append, List.filterMap_append, List.filterMap_cons, subdirItemOf, hitem]

theorem c8_subdir_work_item_witness :
    (processEntries .RemixIcon (fun _ => true) ⟨true, ["icons"]⟩ [] none
        [FsEntry.dir "20" []] [] []).1
      = [{ path := ⟨true, ["icons", "20"]⟩
           entries := []
           categories := [Category.mk "20"]
           icon_size := some IconSize.Md }] :=
  c8_subdir_work_item .RemixIcon (fun _ => true) ⟨true, ["icons"]⟩ [] none "20" [] rfl [] []

theorem fileCallOf_dir (pkgTy : PackageType) (p : PathBuf) (cats : List Category)
    (sz : Option IconSize) (a : String) (t : List FsEntry) :
    fileCallOf pkgTy p cats sz (.dir a t) = none := rfl

theorem subdirItemOf_dir (isCat : String → Bool) (p : PathBuf) (cats : List Category)
    (sz : Option IconSize) (a : String) (t : List FsEntry) :
    subdirItemOf isCat p cats sz (.dir a t) = some (subdirItem isCat p cats sz a t) := rfl

/-- C1: branch isolation of the traversal context.  The traversal of a work
item whose directory holds sibling entries `es₁`, a subdirectory entry
`dir a t`, and sibling entries `es₂` decomposes into: the parent's own file
calls, each built from the parent's categories and size only; the
contributions of the sibling subdirectories, each the traversal of a work
item built from the parent's context and that sibling entry alone; and the
contribution of `dir a t`.  Every part of the right-hand side except the
`subdirItem ... a t` traversal is syntactically independent of the subtree
`t`, so categories appended or sizes set while descending into that subtree
are invisible to every sibling subdirectory and to the files of the parent
directory: each subdirectory's work item carries independent copies of the
parent's category list and size. -/
theorem c1_branch_isolation (pkgTy : PackageType) (isCat : String → Bool) (p : PathBuf)
    (cats : List Category) (sz : Option IconSize) (es₁ es₂ : List FsEntry)
    (a : String) (t : List FsEntry) :
    readIconsLoop pkgTy isCat [⟨p, es₁ ++ FsEntry.dir a t :: es₂, cats, sz⟩]
      = (es₁.filterMap (fileCallOf pkgTy p cats sz)
          ++ es₂.filterMap (fileCallOf pkgTy p cats sz))
        ++ readIconsLoop pkgTy isCat (es₂.filterMap (subdirItemOf isCat p cats sz)).reverse
        ++ readIconsLoop pkgTy isCat [subdirItem isCat p cats sz a t]
        ++ readIconsLoop pkgTy isCat (es₁.filterMap (subdirItemOf isCat p cats sz)).reverse := by
  rw [readIconsLoop_cons]
  simp only [processEntries_eq, List.nil_append, List.append_nil, List.filterMap_append,
    List.filterMap_cons, fileCallOf_dir, subdirItemOf_dir, List.reverse_append,
    List.reverse_cons]
  rw [List.append_assoc (es₂.filterMap (subdirItemOf isCat p cats sz)).reverse]
  rw [readIconsLoop_append, readIconsLoop_append]
  simp [List.append_assoc]
